import Mathlib

/-!
Verification development for `fix-illumos-compat.py`, a single-pass text
patcher: it reads one shell script, applies an ordered list of fix rules
(literal replace-once, literal replace-all, and two regex-based rewrites)
to the in-memory buffer while recording a labelled report entry for every
rule that fired, and writes the buffer back only when it changed.

The embedding works over `List Char` (Python `str` as a sequence of
characters; the inputs considered here are ASCII, and the two character
classes `\w` and `\d` of the script's regexes are modelled by their ASCII
parts, which is exact on the ASCII texts the theorems mention).
-/

namespace FixIllumos

/-- Does `s` begin with `pat`?  (Python slice comparison `s[:len(pat)] == pat`.) -/
def startsWith : List Char → List Char → Bool
  | [], _ => true
  | _ :: _, [] => false
  | p :: ps, c :: cs => p = c && startsWith ps cs

/-- Leftmost occurrence of `pat` in `s`, split form: `some (pre, post)` with
`s = pre ++ pat ++ post` and `pre` shortest possible (Python `str.find`). -/
def splitFirst (pat : List Char) : List Char → Option (List Char × List Char)
  | [] => if startsWith pat [] then some ([], []) else none
  | c :: cs =>
    if startsWith pat (c :: cs) then some ([], (c :: cs).drop pat.length)
    else
      match splitFirst pat cs with
      | some (pre, post) => some (c :: pre, post)
      | none => none

/-- Python `pat in s`. -/
def pyIn (pat s : List Char) : Bool := (splitFirst pat s).isSome

/-- Python `s.replace(old, new, 1)`: replace the leftmost occurrence only. -/
def replaceOnce (s old new : List Char) : List Char :=
  match splitFirst old s with
  | none => s
  | some (pre, post) => pre ++ new ++ post

/-- Structural worker for `replaceAll`; the fuel only bounds the recursion
depth and is irrelevant as soon as it exceeds `s.length` (each step strips
a nonempty pattern off the front of the remainder). -/
def replaceAllF (fuel : Nat) (old new : List Char) (s : List Char) : List Char :=
  match fuel with
  | 0 => s
  | fuel + 1 =>
    match splitFirst old s with
    | none => s
    | some (pre, post) => pre ++ new ++ replaceAllF fuel old new post

/-- Python `s.replace(old, new)`: replace all occurrences, scanning left to
right without overlap. -/
def replaceAll (old new : List Char) (s : List Char) : List Char :=
  replaceAllF (s.length + 1) old new s

/-- Structural worker for `countOccs`, same fuel discipline as `replaceAllF`. -/
def countOccsF (fuel : Nat) (pat : List Char) (s : List Char) : Nat :=
  match fuel with
  | 0 => 0
  | fuel + 1 =>
    match splitFirst pat s with
    | none => 0
    | some (_, post) => 1 + countOccsF fuel pat post

/-- Python `s.count(pat)`: number of non-overlapping occurrences, left to right. -/
def countOccs (pat : List Char) (s : List Char) : Nat :=
  countOccsF (s.length + 1) pat s

/-- ASCII part of the regex class `\w`. -/
def wordChar (c : Char) : Bool := c.isAlphanum || c = '_'

/-- Python `re.findall(r'\(\((\w+)\+\+\)\)', s)`: scan left to right; at a
match emit the captured variable name and continue after the match,
otherwise advance one character.  (The greedy `\w+` cannot backtrack into a
successful `\+\+`, so a match is exactly `((`, a maximal nonempty word-char
run, then `++))`.) -/
def findPlusPlusF (fuel : Nat) (s : List Char) : List (List Char) :=
  match fuel, s with
  | 0, _ => []
  | _ + 1, [] => []
  | fuel + 1, c :: cs =>
    if c = '(' then
      match cs with
      | [] => []
      | c2 :: rest =>
        if c2 = '(' then
          let w := rest.takeWhile wordChar
          if !w.isEmpty && startsWith ("++))".data) (rest.drop w.length) then
            w :: findPlusPlusF fuel (rest.drop (w.length + 4))
          else
            findPlusPlusF fuel (c2 :: rest)
        else
          findPlusPlusF fuel (c2 :: rest)
    else
      findPlusPlusF fuel cs

def findPlusPlus (s : List Char) : List (List Char) :=
  findPlusPlusF (s.length + 1) s

/-- Python `re.sub(r'grep ":(\d+)"', fix_port_grep, s)` where
`fix_port_grep` maps the captured digits `port` to
`grep "[.]port[[:space:]]"`: scan left to right; at a match output the
rewritten text and continue after the match, otherwise copy one character. -/
def fixPortGrepSubF (fuel : Nat) (s : List Char) : List Char :=
  match fuel, s with
  | 0, _ => s
  | _ + 1, [] => []
  | fuel + 1, c :: cs =>
    if startsWith ("grep \":".data) (c :: cs) then
      let rest := (c :: cs).drop 7
      let d := rest.takeWhile Char.isDigit
      if !d.isEmpty && startsWith ("\"".data) (rest.drop d.length) then
        ("grep \"[.]").data ++ d ++ ("[[:space:]]\"").data ++
          fixPortGrepSubF fuel (rest.drop (d.length + 1))
      else
        c :: fixPortGrepSubF fuel cs
    else
      c :: fixPortGrepSubF fuel cs

def fixPortGrepSub (s : List Char) : List Char :=
  fixPortGrepSubF (s.length + 1) s

/-- Lexicographic comparison of Python strings by code point (`a <= b`). -/
def lexLe : List Char → List Char → Bool
  | [], _ => true
  | _ :: _, [] => false
  | a :: as, b :: bs => if a = b then lexLe as bs else decide (a < b)

/-! ## The fix rules: patterns, replacements and labels, transcribed from the script -/

def old1a : List Char :=
  ("    # Disk information\n    if command -v format >/dev/null 2>&1; then\n        echo \"=== Disk Devices ===\" | tee -a \"$OUTPUT_FILE\"\n        echo | format 2>/dev/null | grep \"^[0-9]\" | tee -a \"$OUTPUT_FILE\"\n        echo \"\" | tee -a \"$OUTPUT_FILE\"\n    fi").data

def new1a : List Char :=
  ("    # Disk information (use iostat -En; interactive format hangs without a tty)\n    if command -v iostat >/dev/null 2>&1; then\n        echo \"=== Disk Devices ===\" | tee -a \"$OUTPUT_FILE\"\n        iostat -En 2>/dev/null | tee -a \"$OUTPUT_FILE\"\n        echo \"\" | tee -a \"$OUTPUT_FILE\"\n    fi").data

def label1a : List Char := ("1a: Replaced format with iostat -En in analyze_disk_solaris").data

def old1b : List Char :=
  ("        local disk_list=$(echo \"\" | format 2>/dev/null | grep \"^[[:space:]]*[0-9]\" | awk \x27\x7bprint $2\x7d\x27)").data

def new1b : List Char :=
  ("        local disk_list=\"\"\n        for _d in $(iostat -En 2>/dev/null | awk \x27/^c[0-9]/\x7bprint $1\x7d\x27); do\n            iostat -En \"$_d\" 2>/dev/null | grep -qi \"CD-ROM\" && continue\n            disk_list=\"$disk_list $_d\"\n        done").data

def label1b : List Char := ("1b: Replaced format disk_list with iostat -En + CD-ROM filter").data

def old1c : List Char :=
  ("        echo \"\" | format 2>/dev/null | egrep \"^[0-9]|c[0-9]\" | tee -a \"$OUTPUT_FILE\"").data

def new1c : List Char :=
  ("        iostat -En 2>/dev/null | egrep \"^c[0-9]|Size:|Vendor:\" | tee -a \"$OUTPUT_FILE\"").data

def label1c : List Char := ("1c: Replaced format in storage topology with iostat -En").data

def old2 : List Char := ("|| echo \"0\")").data
def new2 : List Char := ("|| true)").data

def label2 (n : Nat) : List Char :=
  ("2: Fixed || echo \"0\" -> || true (").data ++ (Nat.repr n).data ++ (" instances)").data

/-- `f'(({var}++))'` — the unsafe increment idiom of rule 3. -/
def incOld (v : List Char) : List Char := ("((").data ++ v ++ ("++))").data

/-- `f'{var}=$(({var} + 1))'` — the safe increment replacement of rule 3. -/
def incNew (v : List Char) : List Char := v ++ ("=$((").data ++ v ++ (" + 1))").data

def label3 (v : List Char) (n : Nat) : List Char :=
  ("3: Fixed ((").data ++ v ++ ("++)) -> safe increment (").data ++
    (Nat.repr n).data ++ (" instances)").data

def old_guard : List Char :=
  ("            [[ -c \"$disk_dev\" ]] || continue\n            \n            local disk_base=$(basename \"$disk_dev\" | sed \x27s/s2$//\x27)").data

def new_guard : List Char :=
  ("            [[ -c \"$disk_dev\" ]] || continue\n\n            local disk_base=$(basename \"$disk_dev\" | sed \x27s/s2$//\x27)\n            # Skip CD-ROM / non-disk devices\n            iostat -En \"$disk_base\" 2>/dev/null | grep -qi \"CD-ROM\" && continue").data

def label4 : List Char := ("4: Added CD-ROM skip to partition alignment loop").data

def old_sort : List Char := ("du -sh /* 2>/dev/null | sort -rh | head -10").data
def new_sort : List Char := ("du -sk /* 2>/dev/null | sort -rn | head -10").data

def label5 : List Char := ("5: Replaced sort -rh -> sort -rn, du -sh -> du -sk").data

def old6a : List Char := ("netstat -ant 2>/dev/null").data
def new6a : List Char := ("netstat -an -f inet -P tcp 2>/dev/null").data

def label6a (n : Nat) : List Char :=
  ("6a: Fixed netstat -ant -> -an -f inet -P tcp (").data ++ (Nat.repr n).data ++
    (" instances)").data

def old6b : List Char := ("netstat -tuln 2>/dev/null").data
def new6b : List Char := ("netstat -an -f inet 2>/dev/null").data

def label6b (n : Nat) : List Char :=
  ("6b: Fixed netstat -tuln -> -an -f inet (").data ++ (Nat.repr n).data ++
    (" instances)").data

def label7a : List Char := ("7a: Fixed grep :PORT -> grep [.]PORT for illumos netstat").data

def old_egrep : List Char := ("egrep \":3306|:5432|:1521|:1433|:27017\"").data
def new_egrep : List Char :=
  ("egrep \"[.]3306[[:space:]]|[.]5432[[:space:]]|[.]1521[[:space:]]|[.]1433[[:space:]]|[.]27017[[:space:]]\"").data

def label7b : List Char := ("7b: Fixed egrep compound port pattern for illumos").data

/-! ## Rule 3 (the per-variable increment loop) -/

/-- `sorted(set(re.findall(r'\(\((\w+)\+\+\)\)', content)))`; Python's
`sorted` on a set of distinct strings is the unique ordering by `<`,
modelled by insertion sort over `dedup`. -/
def sortedVars (c : List Char) : List (List Char) :=
  List.insertionSort (fun a b => lexLe a b = true) (findPlusPlus c).dedup

/-- The body of rule 3's `for var in sorted(set(plusplus))` loop: thread the
buffer through the per-variable global replacements, recording `(var, n)`
for each variable whose idiom occurred `n > 0` times. -/
def rule3Go : List (List Char) → List Char → List Char × List (List Char × Nat)
  | [], c => (c, [])
  | v :: vs, c =>
    let n := countOccs (incOld v) c
    if n > 0 then
      let r := rule3Go vs (replaceAll (incOld v) (incNew v) c)
      (r.1, (v, n) :: r.2)
    else
      rule3Go vs c

/-- Rule 3 as one step: new buffer plus its labelled report entries. -/
def applyRule3 (c : List Char) : List Char × List (List Char) :=
  let r := rule3Go (sortedVars c) c
  (r.1, r.2.map fun p => label3 p.1 p.2)

/-! ## The ordered rule list and its interpreter -/

/-- One fix rule, tagged by how it is applied: literal replace-first,
literal replace-all with a counted label, literal replace-all with a plain
label, the per-variable increment rewrite, or the port-grep regex rewrite. -/
inductive FixRule where
  | litOnce (label old new : List Char)
  | litAllCount (mkLabel : Nat → List Char) (old new : List Char)
  | litAll (label old new : List Char)
  | incrAll
  | portSub (label : List Char)

/-- Apply one rule to the buffer; returns the new buffer and the report
entries this rule contributes (empty when it did not fire). -/
def applyRule : FixRule → List Char → List Char × List (List Char)
  | .litOnce label old new, c =>
    if pyIn old c then (replaceOnce c old new, [label]) else (c, [])
  | .litAllCount mkLabel old new, c =>
    let n := countOccs old c
    if n > 0 then (replaceAll old new c, [mkLabel n]) else (c, [])
  | .litAll label old new, c =>
    if pyIn old c then (replaceAll old new c, [label]) else (c, [])
  | .incrAll, c => applyRule3 c
  | .portSub label, c =>
    let c2 := fixPortGrepSub c
    if c2 ≠ c then (c2, [label]) else (c, [])

/-- The script's rules in their declared order: 1a, 1b, 1c, 2, 3, 4, 5,
6a, 6b, 7a, 7b. -/
def ruleList : List FixRule :=
  [ .litOnce label1a old1a new1a
  , .litOnce label1b old1b new1b
  , .litOnce label1c old1c new1c
  , .litAllCount label2 old2 new2
  , .incrAll
  , .litAll label4 old_guard new_guard
  , .litAll label5 old_sort new_sort
  , .litAllCount label6a old6a new6a
  , .litAllCount label6b old6b new6b
  , .portSub label7a
  , .litAll label7b old_egrep new_egrep ]

/-- Fold a rule list over the buffer, accumulating the report. -/
def foldRules (rules : List FixRule) (c : List Char) : List Char × List (List Char) :=
  rules.foldl (fun acc r =>
    let p := applyRule r acc.1
    (p.1, acc.2 ++ p.2)) (c, [])

/-- One fold step of `foldRules`, as a standalone state transformer. -/
def stepState (r : FixRule) (p : List Char × List (List Char)) :
    List Char × List (List Char) :=
  ((applyRule r p.1).1, p.2 ++ (applyRule r p.1).2)

/-! The script body between the read and the write is a straight-line
sequence of eleven conditional substitution blocks, each threading the
`(content, fixes)` state.  One definition per Python block: -/

/-- Block 1a: `if old in content: content = content.replace(old, new, 1); fixes.append(...)`. -/
def step1a (p : List Char × List (List Char)) : List Char × List (List Char) :=
  if pyIn old1a p.1 then (replaceOnce p.1 old1a new1a, p.2 ++ [label1a]) else p

/-- Block 1b, same shape as 1a. -/
def step1b (p : List Char × List (List Char)) : List Char × List (List Char) :=
  if pyIn old1b p.1 then (replaceOnce p.1 old1b new1b, p.2 ++ [label1b]) else p

/-- Block 1c, same shape as 1a. -/
def step1c (p : List Char × List (List Char)) : List Char × List (List Char) :=
  if pyIn old1c p.1 then (replaceOnce p.1 old1c new1c, p.2 ++ [label1c]) else p

/-- Block 2: `count = content.count(old); if count > 0:` replace all, counted label. -/
def step2 (p : List Char × List (List Char)) : List Char × List (List Char) :=
  if countOccs old2 p.1 > 0 then
    (replaceAll old2 new2 p.1, p.2 ++ [label2 (countOccs old2 p.1)])
  else p

/-- Block 3: the per-variable increment loop. -/
def step3 (p : List Char × List (List Char)) : List Char × List (List Char) :=
  ((applyRule3 p.1).1, p.2 ++ (applyRule3 p.1).2)

/-- Block 4: `if old_guard in content:` replace all occurrences. -/
def step4 (p : List Char × List (List Char)) : List Char × List (List Char) :=
  if pyIn old_guard p.1 then (replaceAll old_guard new_guard p.1, p.2 ++ [label4]) else p

/-- Block 5: `if old_sort in content:` replace all occurrences. -/
def step5 (p : List Char × List (List Char)) : List Char × List (List Char) :=
  if pyIn old_sort p.1 then (replaceAll old_sort new_sort p.1, p.2 ++ [label5]) else p

/-- Block 6a: `n1 = content.count(...); if n1:` replace all, counted label. -/
def step6a (p : List Char × List (List Char)) : List Char × List (List Char) :=
  if countOccs old6a p.1 > 0 then
    (replaceAll old6a new6a p.1, p.2 ++ [label6a (countOccs old6a p.1)])
  else p

/-- Block 6b, same shape as 6a. -/
def step6b (p : List Char × List (List Char)) : List Char × List (List Char) :=
  if countOccs old6b p.1 > 0 then
    (replaceAll old6b new6b p.1, p.2 ++ [label6b (countOccs old6b p.1)])
  else p

/-- Block 7a: `new_content = re.sub(...); if new_content != content:` keep it. -/
def step7a (p : List Char × List (List Char)) : List Char × List (List Char) :=
  if fixPortGrepSub p.1 ≠ p.1 then (fixPortGrepSub p.1, p.2 ++ [label7a]) else p

/-- Block 7b: `if old_egrep in content:` replace all occurrences. -/
def step7b (p : List Char × List (List Char)) : List Char × List (List Char) :=
  if pyIn old_egrep p.1 then (replaceAll old_egrep new_egrep p.1, p.2 ++ [label7b]) else p

/-- The module body of the script between the read and the write: the
eleven blocks applied in their declared order to `(content, [])`. -/
def applyFixes (c0 : List Char) : List Char × List (List Char) :=
  step7b (step7a (step6b (step6a (step5 (step4 (step3
    (step2 (step1c (step1b (step1a (c0, [])))))))))))

/-- Outcome of one run: file content afterwards, whether it was written,
the printed lines, and the exit code. -/
structure RunResult where
  finalFile : List Char
  wrote : Bool
  stdout : List (List Char)
  exitCode : Nat
deriving DecidableEq

def noChangesMsg : List Char :=
  ("No changes needed — script is already patched.").data

def appliedLine (n : Nat) (target : List Char) : List Char :=
  ("Applied ").data ++ (Nat.repr n).data ++ (" fix(es) to ").data ++ target ++ (":\n").data

/-- The write-and-report tail of the script, applied to the file content. -/
def runPatcher (input target : List Char) : RunResult :=
  let r := applyFixes input
  if r.1 = input then
    ⟨input, false, [noChangesMsg], 0⟩
  else
    ⟨r.1, true, appliedLine r.2.length target :: r.2.map (fun f => ("  ").data ++ f), 0⟩

/-- The whole process over an abstract file system: the target either reads
to some content or the `open` raises, which propagates as a fatal error
before anything is printed or written. -/
def patcherMain (file : Option (List Char)) (target : List Char) : Except Unit RunResult :=
  match file with
  | none => Except.error ()
  | some c => Except.ok (runPatcher c target)

/-- The default target path used when no argument is given. -/
def defaultTarget : List Char := ("invoke-unix-forensics.sh").data

/-- A representative input containing the patterns of rules 1c, 2, 3, 4,
5, 6a, 6b, 7a and 7b exactly once. -/
def canonicalInput : List Char :=
  ("        echo \"\" | format 2>/dev/null | egrep \"^[0-9]|c[0-9]\" | tee -a \"$OUTPUT_FILE\"\nx=$(grep -c root /etc/passwd || echo \"0\")\n((count++))\n            [[ -c \"$disk_dev\" ]] || continue\n            \n            local disk_base=$(basename \"$disk_dev\" | sed \x27s/s2$//\x27)\ndu -sh /* 2>/dev/null | sort -rh | head -10\nnetstat -ant 2>/dev/null\nnetstat -tuln 2>/dev/null\ngrep \":80\"\negrep \":3306|:5432|:1521|:1433|:27017\"").data

/-- Canonical run: the buffer after rule block 3. -/
def canonMid3 : List Char :=
  ("        iostat -En 2>/dev/null | egrep \"^c[0-9]|Size:|Vendor:\" | tee -a \"$OUTPUT_FILE\"\nx=$(grep -c root /etc/passwd || echo \"0\")\n((count++))\n            [[ -c \"$disk_dev\" ]] || continue\n            \n            local disk_base=$(basename \"$disk_dev\" | sed \x27s/s2$//\x27)\ndu -sh /* 2>/dev/null | sort -rh | head -10\nnetstat -ant 2>/dev/null\nnetstat -tuln 2>/dev/null\ngrep \":80\"\negrep \":3306|:5432|:1521|:1433|:27017\"").data

/-- Canonical run: the buffer after rule block 4. -/
def canonMid4 : List Char :=
  ("        iostat -En 2>/dev/null | egrep \"^c[0-9]|Size:|Vendor:\" | tee -a \"$OUTPUT_FILE\"\nx=$(grep -c root /etc/passwd || true)\n((count++))\n            [[ -c \"$disk_dev\" ]] || continue\n            \n            local disk_base=$(basename \"$disk_dev\" | sed \x27s/s2$//\x27)\ndu -sh /* 2>/dev/null | sort -rh | head -10\nnetstat -ant 2>/dev/null\nnetstat -tuln 2>/dev/null\ngrep \":80\"\negrep \":3306|:5432|:1521|:1433|:27017\"").data

/-- Canonical run: the buffer after rule block 5. -/
def canonMid5 : List Char :=
  ("        iostat -En 2>/dev/null | egrep \"^c[0-9]|Size:|Vendor:\" | tee -a \"$OUTPUT_FILE\"\nx=$(grep -c root /etc/passwd || true)\ncount=$((count + 1))\n            [[ -c \"$disk_dev\" ]] || continue\n            \n            local disk_base=$(basename \"$disk_dev\" | sed \x27s/s2$//\x27)\ndu -sh /* 2>/dev/null | sort -rh | head -10\nnetstat -ant 2>/dev/null\nnetstat -tuln 2>/dev/null\ngrep \":80\"\negrep \":3306|:5432|:1521|:1433|:27017\"").data

/-- Canonical run: the buffer after rule block 6. -/
def canonMid6 : List Char :=
  ("        iostat -En 2>/dev/null | egrep \"^c[0-9]|Size:|Vendor:\" | tee -a \"$OUTPUT_FILE\"\nx=$(grep -c root /etc/passwd || true)\ncount=$((count + 1))\n            [[ -c \"$disk_dev\" ]] || continue\n\n            local disk_base=$(basename \"$disk_dev\" | sed \x27s/s2$//\x27)\n            # Skip CD-ROM / non-disk devices\n            iostat -En \"$disk_base\" 2>/dev/null | grep -qi \"CD-ROM\" && continue\ndu -sh /* 2>/dev/null | sort -rh | head -10\nnetstat -ant 2>/dev/null\nnetstat -tuln 2>/dev/null\ngrep \":80\"\negrep \":3306|:5432|:1521|:1433|:27017\"").data

/-- Canonical run: the buffer after rule block 7. -/
def canonMid7 : List Char :=
  ("        iostat -En 2>/dev/null | egrep \"^c[0-9]|Size:|Vendor:\" | tee -a \"$OUTPUT_FILE\"\nx=$(grep -c root /etc/passwd || true)\ncount=$((count + 1))\n            [[ -c \"$disk_dev\" ]] || continue\n\n            local disk_base=$(basename \"$disk_dev\" | sed \x27s/s2$//\x27)\n            # Skip CD-ROM / non-disk devices\n            iostat -En \"$disk_base\" 2>/dev/null | grep -qi \"CD-ROM\" && continue\ndu -sk /* 2>/dev/null | sort -rn | head -10\nnetstat -ant 2>/dev/null\nnetstat -tuln 2>/dev/null\ngrep \":80\"\negrep \":3306|:5432|:1521|:1433|:27017\"").data

/-- Canonical run: the buffer after rule block 8. -/
def canonMid8 : List Char :=
  ("        iostat -En 2>/dev/null | egrep \"^c[0-9]|Size:|Vendor:\" | tee -a \"$OUTPUT_FILE\"\nx=$(grep -c root /etc/passwd || true)\ncount=$((count + 1))\n            [[ -c \"$disk_dev\" ]] || continue\n\n            local disk_base=$(basename \"$disk_dev\" | sed \x27s/s2$//\x27)\n            # Skip CD-ROM / non-disk devices\n            iostat -En \"$disk_base\" 2>/dev/null | grep -qi \"CD-ROM\" && continue\ndu -sk /* 2>/dev/null | sort -rn | head -10\nnetstat -an -f inet -P tcp 2>/dev/null\nnetstat -tuln 2>/dev/null\ngrep \":80\"\negrep \":3306|:5432|:1521|:1433|:27017\"").data

/-- Canonical run: the buffer after rule block 9. -/
def canonMid9 : List Char :=
  ("        iostat -En 2>/dev/null | egrep \"^c[0-9]|Size:|Vendor:\" | tee -a \"$OUTPUT_FILE\"\nx=$(grep -c root /etc/passwd || true)\ncount=$((count + 1))\n            [[ -c \"$disk_dev\" ]] || continue\n\n            local disk_base=$(basename \"$disk_dev\" | sed \x27s/s2$//\x27)\n            # Skip CD-ROM / non-disk devices\n            iostat -En \"$disk_base\" 2>/dev/null | grep -qi \"CD-ROM\" && continue\ndu -sk /* 2>/dev/null | sort -rn | head -10\nnetstat -an -f inet -P tcp 2>/dev/null\nnetstat -an -f inet 2>/dev/null\ngrep \":80\"\negrep \":3306|:5432|:1521|:1433|:27017\"").data

/-- Canonical run: the buffer after rule block 10. -/
def canonMid10 : List Char :=
  ("        iostat -En 2>/dev/null | egrep \"^c[0-9]|Size:|Vendor:\" | tee -a \"$OUTPUT_FILE\"\nx=$(grep -c root /etc/passwd || true)\ncount=$((count + 1))\n            [[ -c \"$disk_dev\" ]] || continue\n\n            local disk_base=$(basename \"$disk_dev\" | sed \x27s/s2$//\x27)\n            # Skip CD-ROM / non-disk devices\n            iostat -En \"$disk_base\" 2>/dev/null | grep -qi \"CD-ROM\" && continue\ndu -sk /* 2>/dev/null | sort -rn | head -10\nnetstat -an -f inet -P tcp 2>/dev/null\nnetstat -an -f inet 2>/dev/null\ngrep \"[.]80[[:space:]]\"\negrep \":3306|:5432|:1521|:1433|:27017\"").data

/-- Canonical run: the fully patched text. -/
def canonPatched : List Char :=
  ("        iostat -En 2>/dev/null | egrep \"^c[0-9]|Size:|Vendor:\" | tee -a \"$OUTPUT_FILE\"\nx=$(grep -c root /etc/passwd || true)\ncount=$((count + 1))\n            [[ -c \"$disk_dev\" ]] || continue\n\n            local disk_base=$(basename \"$disk_dev\" | sed \x27s/s2$//\x27)\n            # Skip CD-ROM / non-disk devices\n            iostat -En \"$disk_base\" 2>/dev/null | grep -qi \"CD-ROM\" && continue\ndu -sk /* 2>/dev/null | sort -rn | head -10\nnetstat -an -f inet -P tcp 2>/dev/null\nnetstat -an -f inet 2>/dev/null\ngrep \"[.]80[[:space:]]\"\negrep \"[.]3306[[:space:]]|[.]5432[[:space:]]|[.]1521[[:space:]]|[.]1433[[:space:]]|[.]27017[[:space:]]\"").data


/-! ## Basic facts about the string primitives -/

theorem startsWith_self_append (p t : List Char) : startsWith p (p ++ t) = true := by
  induction p with
  | nil => rfl
  | cons c cs ih => simp [startsWith, ih]

theorem eq_append_of_startsWith {p s : List Char} (h : startsWith p s = true) :
    s = p ++ s.drop p.length := by
  induction p generalizing s with
  | nil => simp
  | cons c cs ih =>
    cases s with
    | nil => simp [startsWith] at h
    | cons b bs =>
      simp only [startsWith, Bool.and_eq_true, decide_eq_true_eq] at h
      obtain ⟨rfl, h2⟩ := h
      simpa using ih h2

theorem splitFirst_eq_some {pat s pre post : List Char}
    (h : splitFirst pat s = some (pre, post)) : s = pre ++ pat ++ post := by
  induction s generalizing pre post with
  | nil =>
    rw [splitFirst] at h
    by_cases hs : startsWith pat [] = true
    · rw [if_pos hs] at h
      cases pat with
      | nil =>
        simp only [Option.some.injEq, Prod.mk.injEq] at h
        obtain ⟨rfl, rfl⟩ := h
        rfl
      | cons c cs => simp [startsWith] at hs
    · rw [if_neg hs] at h; cases h
  | cons c cs ih =>
    rw [splitFirst] at h
    by_cases hs : startsWith pat (c :: cs) = true
    · rw [if_pos hs] at h
      simp only [Option.some.injEq, Prod.mk.injEq] at h
      obtain ⟨rfl, rfl⟩ := h
      simpa using eq_append_of_startsWith hs
    · rw [if_neg hs] at h
      cases hrec : splitFirst pat cs with
      | none => rw [hrec] at h; cases h
      | some pq =>
        obtain ⟨pre', post'⟩ := pq
        rw [hrec] at h
        simp only [Option.some.injEq, Prod.mk.injEq] at h
        obtain ⟨rfl, rfl⟩ := h
        simpa using ih hrec

theorem splitFirst_none {pat s : List Char} (h : splitFirst pat s = none) :
    ∀ u v : List Char, s ≠ u ++ pat ++ v := by
  induction s with
  | nil =>
    intro u v heq
    have h3 : u ++ pat ++ v = [] := heq.symm
    rw [List.append_eq_nil] at h3
    obtain ⟨h4, hv⟩ := h3
    rw [List.append_eq_nil] at h4
    obtain ⟨hu, hp⟩ := h4
    subst hp
    simp [splitFirst, startsWith] at h
  | cons c cs ih =>
    intro u v heq
    rw [splitFirst] at h
    by_cases hs : startsWith pat (c :: cs) = true
    · rw [if_pos hs] at h; cases h
    · rw [if_neg hs] at h
      cases u with
      | nil =>
        simp only [List.nil_append] at heq
        exact hs (heq ▸ startsWith_self_append pat v)
      | cons b u' =>
        simp only [List.cons_append, List.cons.injEq] at heq
        obtain ⟨rfl, heq'⟩ := heq
        cases hrec : splitFirst pat cs with
        | none => exact ih hrec u' v heq'
        | some pq => rw [hrec] at h; cases h

/-- `pat in s` in Python, characterised as the existence of a split. -/
theorem pyIn_iff {pat s : List Char} :
    pyIn pat s = true ↔ ∃ u v : List Char, s = u ++ pat ++ v := by
  constructor
  · intro h
    rw [pyIn, Option.isSome_iff_exists] at h
    obtain ⟨⟨pre, post⟩, hsp⟩ := h
    exact ⟨pre, post, splitFirst_eq_some hsp⟩
  · rintro ⟨u, v, rfl⟩
    rw [pyIn]
    cases hsp : splitFirst pat (u ++ pat ++ v) with
    | none => exact absurd rfl (splitFirst_none hsp u v)
    | some pq => rfl

theorem splitFirst_post_length {pat s pre post : List Char} (hpat : pat ≠ [])
    (h : splitFirst pat s = some (pre, post)) : post.length < s.length := by
  have hdec := splitFirst_eq_some h
  have : 0 < pat.length := List.length_pos.mpr hpat
  subst hdec
  simp [List.length_append]
  omega

/-! ## Fuel irrelevance: the workers compute the same value for any
sufficient fuel, so the `length + 1` in the wrappers is inessential. -/

theorem replaceAllF_irrel {old : List Char} (hold : old ≠ []) (new : List Char) :
    ∀ (f₁ f₂ : Nat) (s : List Char), s.length < f₁ → s.length < f₂ →
      replaceAllF f₁ old new s = replaceAllF f₂ old new s := by
  intro f₁
  induction f₁ with
  | zero => intro f₂ s h₁; omega
  | succ a ih =>
    intro f₂ s h₁ h₂
    cases f₂ with
    | zero => omega
    | succ b =>
      cases hsp : splitFirst old s with
      | none => simp only [replaceAllF, hsp]
      | some pq =>
        obtain ⟨pre, post⟩ := pq
        have hlt := splitFirst_post_length hold hsp
        simp only [replaceAllF, hsp]
        rw [ih b post (by omega) (by omega)]

theorem replaceAll_eq {old : List Char} (hold : old ≠ []) (new s : List Char) :
    replaceAll old new s =
      match splitFirst old s with
      | none => s
      | some (pre, post) => pre ++ new ++ replaceAll old new post := by
  cases hsp : splitFirst old s with
  | none => simp only [replaceAll, replaceAllF, hsp]
  | some pq =>
    obtain ⟨pre, post⟩ := pq
    have hlt := splitFirst_post_length hold hsp
    show replaceAll old new s = pre ++ new ++ replaceAll old new post
    conv_lhs => rw [replaceAll]; simp only [replaceAllF, hsp]
    rw [replaceAll]
    rw [replaceAllF_irrel hold new (s.length) (post.length + 1) post (by omega) (by omega)]

theorem countOccsF_irrel {pat : List Char} (hpat : pat ≠ []) :
    ∀ (f₁ f₂ : Nat) (s : List Char), s.length < f₁ → s.length < f₂ →
      countOccsF f₁ pat s = countOccsF f₂ pat s := by
  intro f₁
  induction f₁ with
  | zero => intro f₂ s h₁; omega
  | succ a ih =>
    intro f₂ s h₁ h₂
    cases f₂ with
    | zero => omega
    | succ b =>
      cases hsp : splitFirst pat s with
      | none => simp only [countOccsF, hsp]
      | some pq =>
        obtain ⟨pre, post⟩ := pq
        have hlt := splitFirst_post_length hpat hsp
        simp only [countOccsF, hsp]
        rw [ih b post (by omega) (by omega)]

theorem countOccs_eq {pat : List Char} (hpat : pat ≠ []) (s : List Char) :
    countOccs pat s =
      match splitFirst pat s with
      | none => 0
      | some (_, post) => 1 + countOccs pat post := by
  cases hsp : splitFirst pat s with
  | none => simp only [countOccs, countOccsF, hsp]
  | some pq =>
    obtain ⟨pre, post⟩ := pq
    have hlt := splitFirst_post_length hpat hsp
    show countOccs pat s = 1 + countOccs pat post
    conv_lhs => rw [countOccs]; simp only [countOccsF, hsp]
    rw [countOccs]
    rw [countOccsF_irrel hpat (s.length) (post.length + 1) post (by omega) (by omega)]

theorem replaceAll_some {old s pre post : List Char} (hold : old ≠ []) (new : List Char)
    (h : splitFirst old s = some (pre, post)) :
    replaceAll old new s = pre ++ (new ++ replaceAll old new post) := by
  have hlt := splitFirst_post_length hold h
  conv_lhs => rw [replaceAll]; simp only [replaceAllF, h]
  rw [replaceAll]
  rw [replaceAllF_irrel hold new (s.length) (post.length + 1) post (by omega) (by omega)]
  simp

theorem countOccs_some {pat s pre post : List Char} (hpat : pat ≠ [])
    (h : splitFirst pat s = some (pre, post)) :
    countOccs pat s = 1 + countOccs pat post := by
  have hlt := splitFirst_post_length hpat h
  conv_lhs => rw [countOccs]; simp only [countOccsF, h]
  rw [countOccs]
  rw [countOccsF_irrel hpat (s.length) (post.length + 1) post (by omega) (by omega)]

theorem findPlusPlus_paren_one (c2 : Char) (rest : List Char) (hc2 : c2 ≠ '(') :
    findPlusPlus ('(' :: c2 :: rest) = findPlusPlus (c2 :: rest) := by
  simp only [findPlusPlus, List.length_cons, findPlusPlusF, if_neg hc2, ite_true,
    eq_self_iff_true]

theorem findPlusPlus_nomatch (rest : List Char)
    (hcond : ¬ ((!(rest.takeWhile wordChar).isEmpty &&
      startsWith ("++))".data) (rest.drop (rest.takeWhile wordChar).length)) = true)) :
    findPlusPlus ('(' :: '(' :: rest) = findPlusPlus ('(' :: rest) := by
  simp only [findPlusPlus, List.length_cons, findPlusPlusF, if_neg hcond, ite_true,
    eq_self_iff_true]

theorem fixPortGrepSubF_irrel :
    ∀ (f₁ f₂ : Nat) (s : List Char), s.length < f₁ → s.length < f₂ →
      fixPortGrepSubF f₁ s = fixPortGrepSubF f₂ s := by
  intro f₁
  induction f₁ with
  | zero => intro f₂ s h₁; omega
  | succ a ih =>
    intro f₂ s h₁ h₂
    cases f₂ with
    | zero => omega
    | succ b =>
      cases s with
      | nil => rfl
      | cons c cs =>
        simp only [List.length_cons] at h₁ h₂
        by_cases hg : startsWith ("grep \":".data) (c :: cs) = true
        · simp only [fixPortGrepSubF, if_pos hg]
          by_cases hcond :
              (!(((c :: cs).drop 7).takeWhile Char.isDigit).isEmpty &&
                startsWith ("\"".data)
                  (((c :: cs).drop 7).drop
                    (((c :: cs).drop 7).takeWhile Char.isDigit).length)) = true
          · rw [if_pos hcond, if_pos hcond]
            have hlen : ((((c :: cs).drop 7)).drop
                ((((c :: cs).drop 7).takeWhile Char.isDigit).length + 1)).length ≤
                cs.length := by
              simp only [List.length_drop, List.length_cons]; omega
            rw [ih b _ (by omega) (by omega)]
          · rw [if_neg hcond, if_neg hcond]
            rw [ih b _ (by omega) (by omega)]
        · simp only [fixPortGrepSubF, if_neg hg]
          rw [ih b _ (by omega) (by omega)]

theorem fixPortGrepSub_cons_nomatch {c : Char} (cs : List Char)
    (hg : startsWith ("grep \":".data) (c :: cs) = false) :
    fixPortGrepSub (c :: cs) = c :: fixPortGrepSub cs := by
  simp only [fixPortGrepSub, List.length_cons, fixPortGrepSubF, hg, Bool.false_eq_true,
    if_false]

theorem fixPortGrepSub_cons_digitfail {c : Char} (cs : List Char)
    (hg : startsWith ("grep \":".data) (c :: cs) = true)
    (hcond : ¬ ((!(((c :: cs).drop 7).takeWhile Char.isDigit).isEmpty &&
      startsWith ("\"".data)
        (((c :: cs).drop 7).drop
          (((c :: cs).drop 7).takeWhile Char.isDigit).length)) = true)) :
    fixPortGrepSub (c :: cs) = c :: fixPortGrepSub cs := by
  simp only [fixPortGrepSub, List.length_cons, fixPortGrepSubF, if_pos hg, if_neg hcond]

theorem fixPortGrepSub_nil : fixPortGrepSub [] = [] := rfl

/-! ## A rule fires exactly when it changes the buffer -/

theorem replaceOnce_of_none {s old new : List Char} (h : splitFirst old s = none) :
    replaceOnce s old new = s := by
  rw [replaceOnce, h]

theorem replaceAll_of_none {s old new : List Char} (h : splitFirst old s = none) :
    replaceAll old new s = s := by
  rw [replaceAll, replaceAllF, h]

theorem countOccs_of_none {s pat : List Char} (h : splitFirst pat s = none) :
    countOccs pat s = 0 := by
  rw [countOccs, countOccsF, h]

theorem countOccs_pos {pat s : List Char} (hpat : pat ≠ []) :
    0 < countOccs pat s ↔ pyIn pat s = true := by
  rw [countOccs_eq hpat, pyIn]
  cases hsp : splitFirst pat s with
  | none => simp
  | some pq => obtain ⟨pre, post⟩ := pq; simp

theorem replaceOnce_ne {s old new pre post : List Char} (hne : old ≠ new)
    (h : splitFirst old s = some (pre, post)) : replaceOnce s old new ≠ s := by
  intro heq
  have hro : replaceOnce s old new = pre ++ (new ++ post) := by
    simp only [replaceOnce, h]
    simp
  have heq2 : pre ++ (new ++ post) = s := hro ▸ heq
  have hs : s = pre ++ (old ++ post) := by simpa using splitFirst_eq_some h
  rw [hs] at heq2
  exact hne ((List.append_cancel_right (List.append_cancel_left heq2)).symm)

/-- Total length change of a full replacement pass: each of the
`countOccs` occurrences swaps `old.length` for `new.length`. -/
theorem replaceAll_length {old : List Char} (hold : old ≠ []) (new : List Char) :
    ∀ (n : Nat) (s : List Char), s.length ≤ n →
      (replaceAll old new s).length + countOccs old s * old.length =
        s.length + countOccs old s * new.length := by
  intro n
  induction n with
  | zero =>
    intro s hs
    have : s = [] := List.length_eq_zero.mp (by omega)
    subst this
    cases hsp : splitFirst old [] with
    | none => rw [replaceAll_of_none hsp, countOccs_of_none hsp]; simp
    | some pq =>
      obtain ⟨pre, post⟩ := pq
      have hdec := splitFirst_eq_some hsp
      have hlen : (0:Nat) = pre.length + (old.length + post.length) := by
        simpa [List.length_append] using congrArg List.length hdec
      have : 0 < old.length := List.length_pos.mpr hold
      omega
  | succ k ih =>
    intro s hs
    cases hsp : splitFirst old s with
    | none => rw [replaceAll_of_none hsp, countOccs_of_none hsp]; simp
    | some pq =>
      obtain ⟨pre, post⟩ := pq
      rw [replaceAll_some hold new hsp, countOccs_some hold hsp]
      have hdec := splitFirst_eq_some hsp
      have hpost : post.length ≤ k := by
        have := splitFirst_post_length hold hsp
        omega
      have hih := ih post hpost
      have hslen : s.length = pre.length + (old.length + post.length) := by
        simpa [List.length_append] using congrArg List.length hdec
      simp only [List.length_append]
      rw [Nat.add_mul, Nat.add_mul]
      omega

theorem replaceAll_ne {s old new pre post : List Char} (hold : old ≠ []) (hne : old ≠ new)
    (h : splitFirst old s = some (pre, post)) : replaceAll old new s ≠ s := by
  intro heq
  by_cases hlen : old.length = new.length
  · -- same length: the first occurrence is overwritten in place by a different string
    have heq2 : pre ++ (new ++ replaceAll old new post) = pre ++ (old ++ post) := by
      rw [replaceAll_some hold new h] at heq
      rw [heq]
      simpa using splitFirst_eq_some h
    have hmid := List.append_cancel_left heq2
    have hinj := List.append_inj hmid hlen.symm
    exact hne hinj.1.symm
  · -- different lengths: the total length changes, since at least one occurrence exists
    have hcount : 0 < countOccs old s := by
      rw [countOccs_pos hold, pyIn]
      rw [h]
      rfl
    have hlf := replaceAll_length hold new s.length s (le_refl _)
    rw [heq] at hlf
    have := Nat.eq_of_mul_eq_mul_left hcount
      (show countOccs old s * old.length = countOccs old s * new.length by omega)
    exact hlen this

theorem incOld_length (v : List Char) : (incOld v).length = v.length + 6 := by
  rw [incOld, List.length_append, List.length_append,
    show ("((").data.length = 2 from rfl, show ("++))").data.length = 4 from rfl]
  omega

theorem incNew_length (v : List Char) : (incNew v).length = 2 * v.length + 10 := by
  rw [incNew, List.length_append, List.length_append, List.length_append,
    show ("=$((").data.length = 4 from rfl, show (" + 1))").data.length = 6 from rfl]
  omega

theorem incOld_ne_nil (v : List Char) : incOld v ≠ [] := by
  intro h
  have := congrArg List.length h
  rw [incOld_length] at this
  simp at this

theorem incOld_ne_incNew (v : List Char) : incOld v ≠ incNew v := by
  intro h
  have := congrArg List.length h
  rw [incOld_length, incNew_length] at this
  omega

/-- One fired step of rule 3 strictly lengthens the buffer (the safe
increment is longer than the idiom), and no step ever shortens it. -/
theorem replaceAll_inc_length_lt {v c : List Char} (hn : 0 < countOccs (incOld v) c) :
    c.length < (replaceAll (incOld v) (incNew v) c).length := by
  have hlf := replaceAll_length (incOld_ne_nil v) (incNew v) c.length c (le_refl _)
  set k := countOccs (incOld v) c with hk
  have hexp : k * (incNew v).length = k * (incOld v).length + k * (v.length + 4) := by
    rw [incOld_length, incNew_length, ← Nat.mul_add]
    congr 1
    omega
  have hge : 1 * (v.length + 4) ≤ k * (v.length + 4) :=
    Nat.mul_le_mul_right _ hn
  omega

theorem rule3Go_length : ∀ (vs : List (List Char)) (c : List Char),
    c.length ≤ (rule3Go vs c).1.length := by
  intro vs
  induction vs with
  | nil => intro c; exact le_refl _
  | cons v rest ih =>
    intro c
    rw [rule3Go]
    by_cases hn : 0 < countOccs (incOld v) c
    · rw [if_pos hn]
      have h1 := replaceAll_inc_length_lt hn
      have h2 := ih (replaceAll (incOld v) (incNew v) c)
      simpa using le_trans (le_of_lt h1) h2
    · rw [if_neg hn]
      exact ih c

theorem rule3Go_nil_unchanged : ∀ (vs : List (List Char)) (c : List Char),
    (rule3Go vs c).2 = [] → (rule3Go vs c).1 = c := by
  intro vs
  induction vs with
  | nil => intro c _; rfl
  | cons v rest ih =>
    intro c h
    rw [rule3Go] at *
    by_cases hn : 0 < countOccs (incOld v) c
    · rw [if_pos hn] at h
      simp at h
    · rw [if_neg hn] at h ⊢
      exact ih c h

theorem rule3Go_ne_of_fired : ∀ (vs : List (List Char)) (c : List Char),
    (rule3Go vs c).2 ≠ [] → c.length < (rule3Go vs c).1.length := by
  intro vs
  induction vs with
  | nil => intro c h; simp [rule3Go] at h
  | cons v rest ih =>
    intro c h
    rw [rule3Go] at *
    by_cases hn : 0 < countOccs (incOld v) c
    · rw [if_pos hn]
      have h1 := replaceAll_inc_length_lt (v := v) (c := c) hn
      have h2 := rule3Go_length rest (replaceAll (incOld v) (incNew v) c)
      simpa using lt_of_lt_of_le h1 h2
    · rw [if_neg hn] at h ⊢
      exact ih c h

/-- Rule 3 as a whole reports something exactly when it changed the buffer. -/
theorem applyRule3_report_iff (c : List Char) :
    ((applyRule3 c).2 = [] ↔ (applyRule3 c).1 = c) := by
  rw [applyRule3]
  constructor
  · intro h
    simp only [List.map_eq_nil_iff] at h
    exact rule3Go_nil_unchanged _ c h
  · intro h
    simp only [List.map_eq_nil_iff]
    by_contra hne
    have := rule3Go_ne_of_fired (sortedVars c) c hne
    rw [h] at this
    omega

theorem fixPortGrepSub_match (rest : List Char)
    (hcond : (!(rest.takeWhile Char.isDigit).isEmpty &&
      startsWith ("\"".data) (rest.drop (rest.takeWhile Char.isDigit).length)) = true) :
    fixPortGrepSub ('g' :: 'r' :: 'e' :: 'p' :: ' ' :: '"' :: ':' :: rest) =
      ("grep \"[.]").data ++ rest.takeWhile Char.isDigit ++ ("[[:space:]]\"").data ++
        fixPortGrepSub (rest.drop ((rest.takeWhile Char.isDigit).length + 1)) := by
  show (if (!(rest.takeWhile Char.isDigit).isEmpty &&
      startsWith ("\"".data) (rest.drop (rest.takeWhile Char.isDigit).length)) = true
    then ("grep \"[.]").data ++ rest.takeWhile Char.isDigit ++ ("[[:space:]]\"").data ++
      fixPortGrepSubF (rest.length + 7) (rest.drop ((rest.takeWhile Char.isDigit).length + 1))
    else 'g' :: fixPortGrepSubF (rest.length + 7) ('r' :: 'e' :: 'p' :: ' ' :: '"' :: ':' :: rest))
    = ("grep \"[.]").data ++ rest.takeWhile Char.isDigit ++ ("[[:space:]]\"").data ++
        fixPortGrepSub (rest.drop ((rest.takeWhile Char.isDigit).length + 1))
  rw [if_pos hcond]
  rw [fixPortGrepSubF_irrel (rest.length + 7)
    ((rest.drop ((rest.takeWhile Char.isDigit).length + 1)).length + 1)
    (rest.drop ((rest.takeWhile Char.isDigit).length + 1))
    (by rw [List.length_drop]; omega) (by omega)]
  rfl

/-! ## Per-rule report/change equivalence -/

theorem applyRule_litOnce_iff {old new : List Char} (hne : old ≠ new)
    (label c : List Char) :
    ((applyRule (.litOnce label old new) c).2 = [] ↔
      (applyRule (.litOnce label old new) c).1 = c) := by
  rw [applyRule]
  by_cases hin : pyIn old c = true
  · rw [if_pos hin]
    rw [pyIn, Option.isSome_iff_exists] at hin
    obtain ⟨⟨pre, post⟩, hsp⟩ := hin
    simp only []
    constructor
    · intro h; cases h
    · intro h; exact absurd h (replaceOnce_ne hne hsp)
  · rw [if_neg hin]
    simp

theorem applyRule_litAllCount_iff {old new : List Char} (hold : old ≠ [])
    (hne : old ≠ new) (mkLabel : Nat → List Char) (c : List Char) :
    ((applyRule (.litAllCount mkLabel old new) c).2 = [] ↔
      (applyRule (.litAllCount mkLabel old new) c).1 = c) := by
  rw [applyRule]
  by_cases hn : 0 < countOccs old c
  · rw [if_pos hn]
    have hin : pyIn old c = true := (countOccs_pos hold).mp hn
    rw [pyIn, Option.isSome_iff_exists] at hin
    obtain ⟨⟨pre, post⟩, hsp⟩ := hin
    simp only []
    constructor
    · intro h; cases h
    · intro h; exact absurd h (replaceAll_ne hold hne hsp)
  · rw [if_neg hn]
    simp

theorem applyRule_litAll_iff {old new : List Char} (hold : old ≠ [])
    (hne : old ≠ new) (label c : List Char) :
    ((applyRule (.litAll label old new) c).2 = [] ↔
      (applyRule (.litAll label old new) c).1 = c) := by
  rw [applyRule]
  by_cases hin : pyIn old c = true
  · rw [if_pos hin]
    have hin2 := hin
    rw [pyIn, Option.isSome_iff_exists] at hin2
    obtain ⟨⟨pre, post⟩, hsp⟩ := hin2
    simp only []
    constructor
    · intro h; cases h
    · intro h; exact absurd h (replaceAll_ne hold hne hsp)
  · rw [if_neg hin]
    simp

theorem applyRule_portSub_iff (label c : List Char) :
    ((applyRule (.portSub label) c).2 = [] ↔
      (applyRule (.portSub label) c).1 = c) := by
  rw [applyRule]
  by_cases hne : fixPortGrepSub c ≠ c
  · rw [if_pos hne]
    simp only []
    constructor
    · intro h; cases h
    · intro h; exact absurd h hne
  · rw [if_neg hne]
    simp

theorem applyRule_incrAll_iff (c : List Char) :
    ((applyRule (.incrAll) c).2 = [] ↔ (applyRule (.incrAll) c).1 = c) := by
  rw [applyRule]
  exact applyRule3_report_iff c

theorem step1a_eq (p : List Char × List (List Char)) :
    step1a p = stepState (.litOnce label1a old1a new1a) p := by
  rw [step1a, stepState, applyRule]
  by_cases h : pyIn old1a p.1 = true
  · rw [if_pos h, if_pos h]
  · rw [if_neg h, if_neg h]; simp

theorem step1b_eq (p : List Char × List (List Char)) :
    step1b p = stepState (.litOnce label1b old1b new1b) p := by
  rw [step1b, stepState, applyRule]
  by_cases h : pyIn old1b p.1 = true
  · rw [if_pos h, if_pos h]
  · rw [if_neg h, if_neg h]; simp

theorem step1c_eq (p : List Char × List (List Char)) :
    step1c p = stepState (.litOnce label1c old1c new1c) p := by
  rw [step1c, stepState, applyRule]
  by_cases h : pyIn old1c p.1 = true
  · rw [if_pos h, if_pos h]
  · rw [if_neg h, if_neg h]; simp

theorem step2_eq (p : List Char × List (List Char)) :
    step2 p = stepState (.litAllCount label2 old2 new2) p := by
  rw [step2, stepState, applyRule]
  by_cases h : countOccs old2 p.1 > 0
  · rw [if_pos h, if_pos h]
  · rw [if_neg h, if_neg h]; simp

theorem step3_eq (p : List Char × List (List Char)) :
    step3 p = stepState .incrAll p := rfl

theorem step4_eq (p : List Char × List (List Char)) :
    step4 p = stepState (.litAll label4 old_guard new_guard) p := by
  rw [step4, stepState, applyRule]
  by_cases h : pyIn old_guard p.1 = true
  · rw [if_pos h, if_pos h]
  · rw [if_neg h, if_neg h]; simp

theorem step5_eq (p : List Char × List (List Char)) :
    step5 p = stepState (.litAll label5 old_sort new_sort) p := by
  rw [step5, stepState, applyRule]
  by_cases h : pyIn old_sort p.1 = true
  · rw [if_pos h, if_pos h]
  · rw [if_neg h, if_neg h]; simp

theorem step6a_eq (p : List Char × List (List Char)) :
    step6a p = stepState (.litAllCount label6a old6a new6a) p := by
  rw [step6a, stepState, applyRule]
  by_cases h : countOccs old6a p.1 > 0
  · rw [if_pos h, if_pos h]
  · rw [if_neg h, if_neg h]; simp

theorem step6b_eq (p : List Char × List (List Char)) :
    step6b p = stepState (.litAllCount label6b old6b new6b) p := by
  rw [step6b, stepState, applyRule]
  by_cases h : countOccs old6b p.1 > 0
  · rw [if_pos h, if_pos h]
  · rw [if_neg h, if_neg h]; simp

theorem step7a_eq (p : List Char × List (List Char)) :
    step7a p = stepState (.portSub label7a) p := by
  rw [step7a, stepState, applyRule]
  by_cases h : fixPortGrepSub p.1 ≠ p.1
  · rw [if_pos h, if_pos h]
  · rw [if_neg h, if_neg h]; simp

theorem step7b_eq (p : List Char × List (List Char)) :
    step7b p = stepState (.litAll label7b old_egrep new_egrep) p := by
  rw [step7b, stepState, applyRule]
  by_cases h : pyIn old_egrep p.1 = true
  · rw [if_pos h, if_pos h]
  · rw [if_neg h, if_neg h]; simp

/-- `foldRules` is the composition of `stepState` transformers. -/
theorem foldRules_eq_comp (rules : List FixRule) (c : List Char) :
    foldRules rules c = rules.foldl (fun acc r => stepState r acc) (c, []) := rfl

/-- The script body equals the fold of the ordered rule list 1a, 1b, 1c,
2, 3, 4, 5, 6a, 6b, 7a, 7b over the buffer. -/
theorem applyFixes_eq_foldRules (c : List Char) : applyFixes c = foldRules ruleList c := by
  rw [applyFixes]
  rw [step1a_eq, step1b_eq, step1c_eq, step2_eq, step3_eq, step4_eq, step5_eq,
      step6a_eq, step6b_eq, step7a_eq, step7b_eq]
  rw [foldRules_eq_comp, ruleList]
  simp only [List.foldl_cons, List.foldl_nil]

/-! ## Unfolding the write/report tail -/

theorem runPatcher_of_unchanged {input : List Char} (t : List Char)
    (h : (applyFixes input).1 = input) :
    runPatcher input t = ⟨input, false, [noChangesMsg], 0⟩ := by
  rw [runPatcher]
  simp only [h, if_true, ite_true, eq_self_iff_true]

theorem runPatcher_of_changed {input : List Char} (t : List Char)
    (h : (applyFixes input).1 ≠ input) :
    runPatcher input t =
      ⟨(applyFixes input).1, true,
        appliedLine (applyFixes input).2.length t ::
          (applyFixes input).2.map (fun f => ("  ").data ++ f), 0⟩ := by
  rw [runPatcher]
  simp only [h, if_false, ite_false]

theorem lexLe_total : ∀ a b : List Char, lexLe a b = true ∨ lexLe b a = true := by
  intro a
  induction a with
  | nil => intro b; left; rfl
  | cons x xs ih =>
    intro b
    cases b with
    | nil => right; rfl
    | cons y ys =>
      by_cases hxy : x = y
      · subst hxy
        rcases ih ys with h | h
        · left; simp [lexLe, h]
        · right; simp [lexLe, h]
      · rcases lt_trichotomy x y with h | h | h
        · left; simp [lexLe, hxy, h]
        · exact absurd h hxy
        · right
          have hyx : y ≠ x := fun e => hxy e.symm
          simp [lexLe, hyx, h]

theorem lexLe_trans : ∀ a b c : List Char,
    lexLe a b = true → lexLe b c = true → lexLe a c = true := by
  intro a
  induction a with
  | nil => intro b c _ _; rfl
  | cons x xs ih =>
    intro b c hab hbc
    cases b with
    | nil => simp [lexLe] at hab
    | cons y ys =>
      cases c with
      | nil => simp [lexLe] at hbc
      | cons z zs =>
        by_cases hxy : x = y <;> by_cases hyz : y = z
        · subst hxy; subst hyz
          simp only [lexLe, if_pos rfl] at hab hbc ⊢
          exact ih ys zs hab hbc
        · subst hxy
          simp only [lexLe, if_neg hyz] at hbc
          have hlt : x < z := of_decide_eq_true hbc
          simp [lexLe, ne_of_lt hlt, hlt]
        · subst hyz
          simp only [lexLe, if_neg hxy] at hab
          have hlt : x < y := of_decide_eq_true hab
          simp [lexLe, ne_of_lt hlt, hlt]
        · simp only [lexLe, if_neg hxy] at hab
          simp only [lexLe, if_neg hyz] at hbc
          have hlt : x < z := lt_trans (of_decide_eq_true hab) (of_decide_eq_true hbc)
          simp [lexLe, ne_of_lt hlt, hlt]

theorem sortedVars_sorted (c : List Char) :
    List.Pairwise (fun a b : List Char => lexLe a b = true) (sortedVars c) := by
  haveI : IsTotal (List Char) (fun a b => lexLe a b = true) := ⟨lexLe_total⟩
  haveI : IsTrans (List Char) (fun a b => lexLe a b = true) := ⟨lexLe_trans⟩
  exact List.sorted_insertionSort _ _

theorem sortedVars_nodup (c : List Char) : (sortedVars c).Nodup := by
  have h1 : (findPlusPlus c).dedup.Nodup := List.nodup_dedup _
  have h2 := List.perm_insertionSort (fun a b : List Char => lexLe a b = true)
    (findPlusPlus c).dedup
  exact h2.symm.nodup h1

theorem rule3Go_fst_sublist : ∀ (vs : List (List Char)) (c : List Char),
    List.Sublist ((rule3Go vs c).2.map Prod.fst) vs := by
  intro vs
  induction vs with
  | nil => intro c; simp [rule3Go]
  | cons v rest ih =>
    intro c
    rw [rule3Go]
    by_cases hn : 0 < countOccs (incOld v) c
    · rw [if_pos hn]
      show List.Sublist
        (v :: ((rule3Go rest (replaceAll (incOld v) (incNew v) c)).2.map Prod.fst))
        (v :: rest)
      exact (ih _).cons₂ v
    · rw [if_neg hn]
      exact (ih c).cons v

/-- The variables reported by rule 3, in report order, are strictly
ascending in the code-point lexicographic order. -/
theorem rule3_reportVars_strict_sorted (c : List Char) :
    List.Pairwise (fun a b => lexLe a b = true ∧ a ≠ b)
      ((rule3Go (sortedVars c) c).2.map Prod.fst) :=
  ((sortedVars_sorted c).and (sortedVars_nodup c)).sublist (rule3Go_fst_sublist _ _)

/-! ## Claims -/

/-- C3: for every input text, the patcher's final buffer and report equal
the fold of the ordered rule list 1a, 1b, 1c, 2, 3, 4, 5, 6a, 6b, 7a, 7b
over the buffer — the straight-line script body is that fold, with no
other transformation applied. -/
theorem claimC3 : ∀ c : List Char, applyFixes c = foldRules ruleList c :=
  applyFixes_eq_foldRules

/-- C2 (amended): every rule of the declared list appends a report entry
if and only if it changed the buffer; rules that do not match contribute
nothing and are silently omitted. -/
theorem claimC2 : ∀ r ∈ ruleList, ∀ c : List Char,
    ((applyRule r c).2 = [] ↔ (applyRule r c).1 = c) := by
  intro r hr c
  rw [ruleList] at hr
  simp only [List.mem_cons, List.not_mem_nil, or_false] at hr
  rcases hr with rfl | rfl | rfl | rfl | rfl | rfl | rfl | rfl | rfl | rfl | rfl
  · exact applyRule_litOnce_iff (by decide) label1a c
  · exact applyRule_litOnce_iff (by decide) label1b c
  · exact applyRule_litOnce_iff (by decide) label1c c
  · exact applyRule_litAllCount_iff (by decide) (by decide) label2 c
  · exact applyRule_incrAll_iff c
  · exact applyRule_litAll_iff (by decide) (by decide) label4 c
  · exact applyRule_litAll_iff (by decide) (by decide) label5 c
  · exact applyRule_litAllCount_iff (by decide) (by decide) label6a c
  · exact applyRule_litAllCount_iff (by decide) (by decide) label6b c
  · exact applyRule_portSub_iff label7a c
  · exact applyRule_litAll_iff (by decide) (by decide) label7b c

/-- Witness for C2: rule 2 is in the list, and on a concrete buffer the
equivalence is meaningful on both sides. -/
theorem claimC2_witness :
    (FixRule.litAllCount label2 old2 new2 ∈ ruleList) ∧
    (((applyRule (FixRule.litAllCount label2 old2 new2) (("x=$(y || echo \"0\")").data)).2 = []) ↔
      ((applyRule (FixRule.litAllCount label2 old2 new2) (("x=$(y || echo \"0\")").data)).1 =
        ("x=$(y || echo \"0\")").data)) := by
  have hmem : FixRule.litAllCount label2 old2 new2 ∈ ruleList := by
    rw [ruleList]
    exact List.mem_cons_of_mem _ (List.mem_cons_of_mem _ (List.mem_cons_of_mem _
      (List.mem_cons_self _ _)))
  exact ⟨hmem, claimC2 _ hmem _⟩

set_option maxRecDepth 40000 in
/-- C2 counterexample: on a buffer that is exactly rule 4's pattern, the
rule is applied globally (1 instance changed) yet its report entry does
not include the instance count — the digit 1 does not occur in it. -/
theorem claimC2_counterexample :
    (applyFixes old_guard).2 = [label4] ∧
    countOccs old_guard old_guard = 1 ∧
    pyIn ((Nat.repr 1).data) label4 = false := by decide

/-- C7: an unreadable target (the read raises) aborts the process before
any report is produced and before anything is written: the run is a fatal
error carrying no `RunResult`. -/
theorem claimC7 : ∀ t : List Char,
    patcherMain none t = Except.error () ∧ (patcherMain none t).toOption = none := by
  intro t
  exact ⟨rfl, rfl⟩

/-- C8: the patcher is deterministic — identical file contents give
identical final content and printed report. -/
theorem claimC8 : ∀ (c₁ c₂ t : List Char), c₁ = c₂ → runPatcher c₁ t = runPatcher c₂ t := by
  intro c₁ c₂ t h
  rw [h]

/-- Witness for C8 at a concrete content. -/
theorem claimC8_witness :
    (("x".data : List Char) = "x".data) ∧
    runPatcher ("x".data) defaultTarget = runPatcher ("x".data) defaultTarget :=
  ⟨rfl, claimC8 _ _ _ rfl⟩

/-- C9: the report entries of the increment rule are the labels of the
`(variable, count)` trace, and the traced variable names are strictly
ascending in code-point (alphabetical) order, whatever the order of the
idioms in the input. -/
theorem claimC9 : ∀ c : List Char,
    (applyRule3 c).2 = ((rule3Go (sortedVars c) c).2.map fun p => label3 p.1 p.2) ∧
    List.Pairwise (fun a b => lexLe a b = true ∧ a ≠ b)
      ((rule3Go (sortedVars c) c).2.map Prod.fst) := by
  intro c
  exact ⟨rfl, rule3_reportVars_strict_sorted c⟩

set_option maxRecDepth 60000 in
theorem canonStep1 : step1a (canonicalInput, ([] : List (List Char))) = (canonicalInput, ([] : List (List Char))) := by decide

set_option maxRecDepth 60000 in
theorem canonStep2 : step1b (canonicalInput, ([] : List (List Char))) = (canonicalInput, ([] : List (List Char))) := by decide

set_option maxRecDepth 60000 in
theorem canonStep3 : step1c (canonicalInput, ([] : List (List Char))) = (canonMid3, [label1c]) := by decide

set_option maxRecDepth 60000 in
theorem canonStep4 : step2 (canonMid3, [label1c]) = (canonMid4, [label1c, label2 1]) := by decide

set_option maxRecDepth 60000 in
theorem canonStep5 : step3 (canonMid4, [label1c, label2 1]) = (canonMid5, [label1c, label2 1, label3 (("count").data) 1]) := by decide

set_option maxRecDepth 60000 in
theorem canonStep6 : step4 (canonMid5, [label1c, label2 1, label3 (("count").data) 1]) = (canonMid6, [label1c, label2 1, label3 (("count").data) 1, label4]) := by decide

set_option maxRecDepth 60000 in
theorem canonStep7 : step5 (canonMid6, [label1c, label2 1, label3 (("count").data) 1, label4]) = (canonMid7, [label1c, label2 1, label3 (("count").data) 1, label4, label5]) := by decide

set_option maxRecDepth 60000 in
theorem canonStep8 : step6a (canonMid7, [label1c, label2 1, label3 (("count").data) 1, label4, label5]) = (canonMid8, [label1c, label2 1, label3 (("count").data) 1, label4, label5, label6a 1]) := by decide

set_option maxRecDepth 60000 in
theorem canonStep9 : step6b (canonMid8, [label1c, label2 1, label3 (("count").data) 1, label4, label5, label6a 1]) = (canonMid9, [label1c, label2 1, label3 (("count").data) 1, label4, label5, label6a 1, label6b 1]) := by decide

set_option maxRecDepth 60000 in
theorem canonStep10 : step7a (canonMid9, [label1c, label2 1, label3 (("count").data) 1, label4, label5, label6a 1, label6b 1]) = (canonMid10, [label1c, label2 1, label3 (("count").data) 1, label4, label5, label6a 1, label6b 1, label7a]) := by decide

set_option maxRecDepth 60000 in
theorem canonStep11 : step7b (canonMid10, [label1c, label2 1, label3 (("count").data) 1, label4, label5, label6a 1, label6b 1, label7a]) = (canonPatched, [label1c, label2 1, label3 (("count").data) 1, label4, label5, label6a 1, label6b 1, label7a, label7b]) := by decide

set_option maxRecDepth 60000 in
theorem canonRerunStep1 : step1a (canonPatched, ([] : List (List Char))) = (canonPatched, []) := by decide

set_option maxRecDepth 60000 in
theorem canonRerunStep2 : step1b (canonPatched, ([] : List (List Char))) = (canonPatched, []) := by decide

set_option maxRecDepth 60000 in
theorem canonRerunStep3 : step1c (canonPatched, ([] : List (List Char))) = (canonPatched, []) := by decide

set_option maxRecDepth 60000 in
theorem canonRerunStep4 : step2 (canonPatched, ([] : List (List Char))) = (canonPatched, []) := by decide

set_option maxRecDepth 60000 in
theorem canonRerunStep5 : step3 (canonPatched, ([] : List (List Char))) = (canonPatched, []) := by decide

set_option maxRecDepth 60000 in
theorem canonRerunStep6 : step4 (canonPatched, ([] : List (List Char))) = (canonPatched, []) := by decide

set_option maxRecDepth 60000 in
theorem canonRerunStep7 : step5 (canonPatched, ([] : List (List Char))) = (canonPatched, []) := by decide

set_option maxRecDepth 60000 in
theorem canonRerunStep8 : step6a (canonPatched, ([] : List (List Char))) = (canonPatched, []) := by decide

set_option maxRecDepth 60000 in
theorem canonRerunStep9 : step6b (canonPatched, ([] : List (List Char))) = (canonPatched, []) := by decide

set_option maxRecDepth 60000 in
theorem canonRerunStep10 : step7a (canonPatched, ([] : List (List Char))) = (canonPatched, []) := by decide

set_option maxRecDepth 60000 in
theorem canonRerunStep11 : step7b (canonPatched, ([] : List (List Char))) = (canonPatched, []) := by decide


theorem applyFixes_canonical :
    applyFixes canonicalInput = (canonPatched, [label1c, label2 1, label3 (("count").data) 1, label4, label5, label6a 1, label6b 1, label7a, label7b]) := by
  rw [applyFixes, canonStep1, canonStep2, canonStep3, canonStep4, canonStep5, canonStep6,
      canonStep7, canonStep8, canonStep9, canonStep10, canonStep11]

theorem applyFixes_canonPatched :
    applyFixes canonPatched = (canonPatched, []) := by
  rw [applyFixes, canonRerunStep1, canonRerunStep2, canonRerunStep3, canonRerunStep4,
      canonRerunStep5, canonRerunStep6, canonRerunStep7, canonRerunStep8, canonRerunStep9,
      canonRerunStep10, canonRerunStep11]

set_option maxRecDepth 40000 in
/-- C1 (amended): the patcher is idempotent on inputs whose
first-occurrence-only patterns occur at most once: on the representative
input exercising rules 1c through 7b, running the patcher a second time on
the patched output changes nothing and reports the no-op status. -/
theorem claimC1 :
    runPatcher (runPatcher canonicalInput defaultTarget).finalFile defaultTarget =
      ⟨canonPatched, false, [noChangesMsg], 0⟩ := by
  have hch : (applyFixes canonicalInput).1 ≠ canonicalInput := by
    rw [applyFixes_canonical]
    decide
  rw [runPatcher_of_changed defaultTarget hch]
  show runPatcher (applyFixes canonicalInput).1 defaultTarget = _
  rw [applyFixes_canonical]
  show runPatcher canonPatched defaultTarget = _
  exact runPatcher_of_unchanged defaultTarget (by rw [applyFixes_canonPatched])

set_option maxRecDepth 40000 in
/-- C1 counterexample: on a text made of two copies of rule 1c's pattern
the first run rewrites only the first copy (rules 1a-1c replace the first
occurrence only), so the second run rewrites the second copy: it writes
again and does not report the no-op status. -/
theorem claimC1_counterexample :
    (runPatcher (runPatcher (old1c ++ old1c) defaultTarget).finalFile defaultTarget).wrote
      = true ∧
    (runPatcher (runPatcher (old1c ++ old1c) defaultTarget).finalFile defaultTarget).stdout
      ≠ [noChangesMsg] := by
  decide

end FixIllumos

namespace FixIllumos

theorem splitFirst_none_of_not_pyIn {pat s : List Char} (h : pyIn pat s = false) :
    splitFirst pat s = none := by
  rw [pyIn] at h
  exact Option.not_isSome_iff_eq_none.mp (by simp [h])

end FixIllumos

namespace FixIllumos

end FixIllumos

namespace FixIllumos

end FixIllumos

namespace FixIllumos

end FixIllumos

namespace FixIllumos

end FixIllumos

namespace FixIllumos

theorem startsWith_append_split {pat x y : List Char} (h : startsWith pat (x ++ y) = true) :
    (pat.length ≤ x.length ∧ startsWith pat x = true) ∨
    (x.length < pat.length ∧ x = pat.take x.length ∧
      startsWith (pat.drop x.length) y = true) := by
  induction x generalizing pat with
  | nil =>
    cases pat with
    | nil => left; exact ⟨le_refl _, rfl⟩
    | cons p ps => right; exact ⟨by simp, by simp, by simpa using h⟩
  | cons a x' ih =>
    cases pat with
    | nil => left; exact ⟨by simp, rfl⟩
    | cons p ps =>
      rw [List.cons_append, startsWith, Bool.and_eq_true, decide_eq_true_eq] at h
      obtain ⟨rfl, h2⟩ := h
      rcases ih h2 with ⟨hl, hs⟩ | ⟨hl, he, hs⟩
      · left
        refine ⟨by simpa using hl, ?_⟩
        rw [startsWith]
        simp [hs]
      · right
        refine ⟨by simpa using hl, ?_, ?_⟩
        · simpa using he
        · simpa using hs

theorem pyIn_of_drop_startsWith {pat A : List Char} {i : Nat}
    (h : startsWith pat (A.drop i) = true) : pyIn pat A = true := by
  rw [pyIn_iff]
  refine ⟨A.take i, (A.drop i).drop pat.length, ?_⟩
  conv_lhs => rw [← List.take_append_drop i A]
  rw [eq_append_of_startsWith h]
  simp

theorem head_eq_of_startsWith {pat s : List Char} (hpat : pat ≠ [])
    (h : startsWith pat s = true) : s.head? = pat.head? := by
  cases pat with
  | nil => exact absurd rfl hpat
  | cons p ps =>
    cases s with
    | nil => simp [startsWith] at h
    | cons c cs =>
      rw [startsWith, Bool.and_eq_true, decide_eq_true_eq] at h
      simp [h.1]

theorem pyIn_cons_of_tail {pat cs : List Char} (c : Char) (h : pyIn pat cs = true) :
    pyIn pat (c :: cs) = true := by
  rw [pyIn_iff] at h ⊢
  obtain ⟨u, v, rfl⟩ := h
  exact ⟨c :: u, v, by simp⟩

theorem fpg_skip : ∀ (A rest : List Char),
    (∀ i, i < A.length → startsWith (("grep \":").data) ((A ++ rest).drop i) = false) →
    fixPortGrepSub (A ++ rest) = A ++ fixPortGrepSub rest := by
  intro A
  induction A with
  | nil => intro rest _; simp
  | cons a A' ih =>
    intro rest hpre
    have h0 : startsWith (("grep \":").data) (a :: (A' ++ rest)) = false := by
      simpa using hpre 0 (by simp)
    rw [List.cons_append, fixPortGrepSub_cons_nomatch _ h0]
    rw [ih rest (fun i hi => by simpa using hpre (i + 1) (by simp; omega))]
    rfl

theorem noStart7_of_not_pyIn (A rest : List Char)
    (hA : pyIn (("grep \":").data) A = false) (hg : rest.head? = some 'g') :
    ∀ i, i < A.length → startsWith (("grep \":").data) ((A ++ rest).drop i) = false := by
  intro i hi
  by_contra hcon
  have htrue : startsWith (("grep \":").data) ((A ++ rest).drop i) = true := by
    simpa using hcon
  rw [List.drop_append_of_le_length (le_of_lt hi)] at htrue
  rcases startsWith_append_split htrue with ⟨hl, hs⟩ | ⟨hl, he, hs⟩
  · rw [pyIn_of_drop_startsWith hs] at hA
    cases hA
  · have hk1 : 0 < (A.drop i).length := by
      rw [List.length_drop]; omega
    have hk7 : (A.drop i).length < (("grep \":").data).length := hl
    have h7 : (("grep \":").data).length = 7 := rfl
    have hne : (("grep \":").data).drop (A.drop i).length ≠ [] := by
      intro hnil
      have hlen := congrArg List.length hnil
      rw [List.length_drop, h7] at hlen
      simp only [List.length_nil] at hlen
      rw [h7] at hk7
      omega
    have hhead := head_eq_of_startsWith hne hs
    rw [hg] at hhead
    have hno : ∀ k, k < 7 → 0 < k →
        ((("grep \":").data).drop k).head? ≠ some 'g' := by decide
    exact hno (A.drop i).length (h7 ▸ hk7) hk1 hhead.symm

theorem fixPortGrepSub_id_of_not_pyIn : ∀ {CC : List Char},
    pyIn (("grep \":").data) CC = false → fixPortGrepSub CC = CC := by
  intro CC
  induction CC with
  | nil => intro _; rfl
  | cons c cs ih =>
    intro h
    have h0 : startsWith (("grep \":").data) (c :: cs) = false := by
      cases hsw : startsWith (("grep \":").data) (c :: cs) with
      | false => rfl
      | true =>
        have : pyIn (("grep \":").data) (c :: cs) = true := by
          have := pyIn_of_drop_startsWith (i := 0) (A := c :: cs) (by simpa using hsw)
          exact this
        rw [this] at h
        cases h
    rw [fixPortGrepSub_cons_nomatch _ h0]
    have htail : pyIn (("grep \":").data) cs = false := by
      cases htl : pyIn (("grep \":").data) cs with
      | false => rfl
      | true => rw [pyIn_cons_of_tail c htl] at h; cases h
    rw [ih htail]

theorem fpg_g80 (X : List Char) :
    fixPortGrepSub ((("grep \":80\"").data) ++ X) =
      (("grep \"[.]80[[:space:]]\"").data) ++ fixPortGrepSub X := by
  have h := fixPortGrepSub_match ((("80\"").data) ++ X) (by rfl)
  exact h

theorem fpg_g8080 (X : List Char) :
    fixPortGrepSub ((("grep \":8080\"").data) ++ X) =
      (("grep \"[.]8080[[:space:]]\"").data) ++ fixPortGrepSub X := by
  have h := fixPortGrepSub_match ((("8080\"").data) ++ X) (by rfl)
  exact h

end FixIllumos

namespace FixIllumos

theorem c5_main : ∀ A B C : List Char,
    pyIn (("grep \":").data) A = false →
    pyIn (("grep \":").data) B = false →
    pyIn (("grep \":").data) C = false →
    fixPortGrepSub
        (A ++ ((("grep \":80\"").data) ++ (B ++ ((("grep \":8080\"").data) ++ C)))) =
      A ++ ((("grep \"[.]80[[:space:]]\"").data) ++
        (B ++ ((("grep \"[.]8080[[:space:]]\"").data) ++ C))) := by
  intro A B C hA hB hC
  rw [fpg_skip A ((("grep \":80\"").data) ++ (B ++ ((("grep \":8080\"").data) ++ C)))
    (noStart7_of_not_pyIn A ((("grep \":80\"").data) ++ (B ++ ((("grep \":8080\"").data) ++ C))) hA rfl)]
  rw [fpg_g80]
  rw [fpg_skip B ((("grep \":8080\"").data) ++ C)
    (noStart7_of_not_pyIn B ((("grep \":8080\"").data) ++ C) hB rfl)]
  rw [fpg_g8080]
  rw [fixPortGrepSub_id_of_not_pyIn hC]

theorem takeWhile_digits_append (d rest : List Char)
    (hdig : ∀ ch ∈ d, ch.isDigit = true) :
    (d ++ ('"' :: rest)).takeWhile Char.isDigit = d := by
  induction d with
  | nil => rfl
  | cons a d' ih =>
    have ha : a.isDigit = true := hdig a (by simp)
    rw [List.cons_append, List.takeWhile_cons, ha]
    simp [ih (fun ch hch => hdig ch (by simp [hch]))]

theorem drop_digits_append (d rest : List Char) :
    (d ++ ('"' :: rest)).drop (d.length + 1) = rest := by
  have hsplit : d ++ ('"' :: rest) = (d ++ ['"']) ++ rest := by simp
  rw [hsplit]
  have hl : (d ++ ['"']).length = d.length + 1 := by simp
  rw [← hl, List.drop_left]

theorem fpg_general (d rest : List Char) (hne : d ≠ [])
    (hdig : ∀ ch ∈ d, ch.isDigit = true) :
    fixPortGrepSub ((("grep \":").data) ++ (d ++ ('"' :: rest))) =
      (("grep \"[.]").data) ++ (d ++ ((("[[:space:]]\"").data) ++ fixPortGrepSub rest)) := by
  have htake := takeWhile_digits_append d rest hdig
  have hdrop0 : (d ++ ('"' :: rest)).drop d.length = '"' :: rest := List.drop_left d _
  have hcond : (!((d ++ ('"' :: rest)).takeWhile Char.isDigit).isEmpty &&
      startsWith ("\"".data)
        ((d ++ ('"' :: rest)).drop ((d ++ ('"' :: rest)).takeWhile Char.isDigit).length))
      = true := by
    rw [htake, hdrop0]
    simp [startsWith, List.isEmpty_iff, hne]
  have h := fixPortGrepSub_match (d ++ ('"' :: rest)) hcond
  rw [htake, drop_digits_append d rest] at h
  exact h.trans (by simp [List.append_assoc])

/-- C5: for input texts of the shape `A grep ":80" B grep ":8080" C` whose
context segments contain no occurrence of the match prefix `grep ":`, the
port-pattern rule rewrites the two greps to their dot-prefixed,
whitespace-terminated forms and leaves the context untouched, and the rule
records its labelled report entry; and in general every occurrence
`grep \":<digits>\"` is rewritten to `grep \"[.]<digits>[[:space:]]\"`
parameterized by the captured digits. -/
theorem claimC5 :
    (∀ A B C : List Char,
      pyIn (("grep \":").data) A = false →
      pyIn (("grep \":").data) B = false →
      pyIn (("grep \":").data) C = false →
      fixPortGrepSub
          (A ++ ((("grep \":80\"").data) ++ (B ++ ((("grep \":8080\"").data) ++ C)))) =
        A ++ ((("grep \"[.]80[[:space:]]\"").data) ++
          (B ++ ((("grep \"[.]8080[[:space:]]\"").data) ++ C))) ∧
      (applyRule (.portSub label7a)
          (A ++ ((("grep \":80\"").data) ++ (B ++ ((("grep \":8080\"").data) ++ C))))).2 =
        [label7a]) ∧
    (∀ d rest : List Char, d ≠ [] → (∀ ch ∈ d, ch.isDigit = true) →
      fixPortGrepSub ((("grep \":").data) ++ (d ++ ('"' :: rest))) =
        (("grep \"[.]").data) ++ (d ++ ((("[[:space:]]\"").data) ++ fixPortGrepSub rest))) := by
  refine ⟨?_, fpg_general⟩
  intro A B C hA hB hC
  have heq := c5_main A B C hA hB hC
  refine ⟨heq, ?_⟩
  have hne : fixPortGrepSub
      (A ++ ((("grep \":80\"").data) ++ (B ++ ((("grep \":8080\"").data) ++ C)))) ≠
      (A ++ ((("grep \":80\"").data) ++ (B ++ ((("grep \":8080\"").data) ++ C)))) := by
    rw [heq]
    intro hfalse
    have hlen := congrArg List.length hfalse
    have e1 : ((("grep \"[.]80[[:space:]]\"").data)).length = 23 := rfl
    have e2 : ((("grep \"[.]8080[[:space:]]\"").data)).length = 25 := rfl
    have e3 : ((("grep \":80\"").data)).length = 10 := rfl
    have e4 : ((("grep \":8080\"").data)).length = 12 := rfl
    simp only [List.length_append, e1, e2, e3, e4] at hlen
    omega
  simp only [applyRule]
  rw [if_pos hne]

/-- Witness for C5 at concrete context segments. -/
theorem claimC5_witness :
    ((pyIn (("grep \":").data) (("netstat -an | ").data) = false ∧
     pyIn (("grep \":").data) ((" ; ").data) = false ∧
     pyIn (("grep \":").data) (("\n").data) = false) ∧
     fixPortGrepSub
        ((("netstat -an | ").data) ++ ((("grep \":80\"").data) ++
          (((" ; ").data) ++ ((("grep \":8080\"").data) ++ (("\n").data))))) =
      (("netstat -an | ").data) ++ ((("grep \"[.]80[[:space:]]\"").data) ++
        (((" ; ").data) ++ ((("grep \"[.]8080[[:space:]]\"").data) ++ (("\n").data)))) ∧
    (applyRule (.portSub label7a)
        ((("netstat -an | ").data) ++ ((("grep \":80\"").data) ++
          (((" ; ").data) ++ ((("grep \":8080\"").data) ++ (("\n").data)))))).2 =
      [label7a]) ∧
    ((("80").data ≠ [] ∧ ∀ ch ∈ ("80").data, ch.isDigit = true) ∧
     fixPortGrepSub ((("grep \":").data) ++ ((("80").data) ++ ('"' :: ("x").data))) =
       (("grep \"[.]").data) ++ ((("80").data) ++
         ((("[[:space:]]\"").data) ++ fixPortGrepSub (("x").data)))) := by
  refine ⟨⟨⟨by decide, by decide, by decide⟩, ?_⟩,
    ⟨by decide, by decide⟩, claimC5.2 (("80").data) (("x").data) (by decide) (by decide)⟩
  exact claimC5.1 _ _ _ (by decide) (by decide) (by decide)

end FixIllumos
